import Mathlib

/-!
Verification of the schema normalization and synchronization engine of the
pet-adoption ETL pipeline (main.py): a shallow embedding of the identifier
filter (dropInvalid), the type-coercion stage (dtypeConv), the lookup-table
builder (schemaConv), the schema resolver (schemaConv2), the mapping-contract
serialization, and the row-by-row upsert writer (upConnection), together with
theorems settling the behavioural claims about them.
-/

namespace ETL

/-! ## Destination-table model for the Synchronization Writer

The destination SQL table (pets / new_pets) is constrained by a unique
primary key on the identifier column, so it is modelled as a partial map
from key to row payload, where the payload stands for the tuple of non-key
columns. -/

/-- Embedding of one statement built inside the loop of upConnection:
insert(table).values(record).on_duplicate_key_update(update_dict), where
update_dict covers every non-key column of the table.  On a key conflict
the whole non-key payload is overwritten with the incoming values; absent
the key, the row is inserted. -/
def upsertRow {V : Type} (t : Nat → Option V) (k : Nat) (v : V) : Nat → Option V :=
  fun q => if q = k then some v else t q

/-- Embedding of the statement loop of upConnection: the per-row upsert
statements for the records of df.to_dict("records") are executed from the
first record to the last. -/
def upConnection {V : Type} (t : Nat → Option V) (recs : List (Nat × V)) : Nat → Option V :=
  recs.foldl (fun acc r => upsertRow acc r.1 r.2) t

/-- Last value assigned to a key by a batch of records (proof device:
the rightmost record of the batch carrying this key wins). -/
def lastAssign {V : Type} (recs : List (Nat × V)) (k : Nat) : Option V :=
  match recs with
  | [] => none
  | r :: rs =>
    match lastAssign rs k with
    | some v => some v
    | none => if r.1 = k then some r.2 else none

/-! ## Transactional execution model for the upsert batch

upConnection opens the connection with engine.begin(), a transactional
context manager: the per-row statements all execute on the one connection
of that block, the transaction is committed when the block exits normally
and rolled back if any statement raises.  The success or failure of each
statement is modelled by a boolean oracle. -/

/-- Body of the with engine.begin() block of upConnection: execute the
per-row statements in order; the first failing statement raises and aborts
the rest of the loop. -/
def runBody {V : Type} (ok : Nat → V → Bool) :
    (Nat → Option V) → List (Nat × V) → Option (Nat → Option V)
  | t, [] => some t
  | t, r :: rs => if ok r.1 r.2 then runBody ok (upsertRow t r.1 r.2) rs else none

/-- Embedding of upConnection run under engine.begin(): commit the final
state on success, roll back to the initial table on an exception. -/
def upConnectionTxn {V : Type} (ok : Nat → V → Bool)
    (t : Nat → Option V) (recs : List (Nat × V)) : Nat → Option V :=
  (runBody ok t recs).getD t

/-! ## Raw and typed cell model for the Type Coercion Stage

A raw dataframe cell is either a missing value (NaN / None), a string from
the JSON feed, or a number (pd.to_numeric writes numbers back into the
object column of the identifier).  A typed cell is the result of the
per-column coercions of dtypeConv; the single null constructor stands for
every pandas null sentinel (NaN, None, pd.NA, NaT). -/

inductive RCell where
  | null : RCell
  | s (v : String) : RCell
  | num (q : Rat) : RCell
deriving DecidableEq

inductive TVal where
  | null : TVal
  | vInt (n : Int) : TVal
  | vFloat (q : Rat) : TVal
  | vBool (b : Bool) : TVal
  | vStr (v : String) : TVal
  | vDate (d : Int) : TVal
deriving DecidableEq

/-- Column dtypes used by the positional schema of dtypeConv.  floatExtractD
is the mixed-text column coerced with str.extract; epochD is the
seconds-since-epoch column converted to a calendar day; objD is the pandas
object dtype produced when nulls are boxed as Python None. -/
inductive Dtype where
  | intD | int32D | catD | strD | boolD | floatD | floatExtractD | epochD | dateD | objD
deriving DecidableEq

/-- Numeric value of a list of ASCII digits. -/
def digitsToNat (l : List Char) : Nat :=
  l.foldl (fun a c => a * 10 + (c.toNat - 48)) 0

/-- Unsigned decimal literal: digits with an optional fractional part, at
least one digit overall (model of the literals float() accepts). -/
def parseUnsigned (l : List Char) : Option Rat :=
  match l.span (fun c => c.isDigit) with
  | (intPart, rest) =>
    match rest with
    | [] => if intPart.isEmpty then none else some ((digitsToNat intPart : Nat) : Rat)
    | c :: frac =>
      if c = '.' ∧ frac.all (fun d => d.isDigit) ∧ (intPart ≠ [] ∨ frac ≠ []) then
        some (((digitsToNat intPart : Nat) : Rat) +
          ((digitsToNat frac : Nat) : Rat) / ((10 : Rat) ^ frac.length))
      else none

/-- Model of float conversion of a string (astype(float) / to_numeric):
an optional minus sign followed by an unsigned decimal literal. -/
def parseFloat? (s : String) : Option Rat :=
  match s.data with
  | [] => none
  | c :: rest =>
    if c = '-' then (parseUnsigned rest).map (fun q => -q)
    else parseUnsigned (c :: rest)

/-- Model of integer conversion of a string (astype(int)): an optional minus
sign followed by digits only. -/
def parseInt? (s : String) : Option Int :=
  match s.data with
  | [] => none
  | c :: rest =>
    if c = '-' then
      if rest ≠ [] ∧ rest.all (fun d => d.isDigit) then
        some (-((digitsToNat rest : Nat) : Int))
      else none
    else
      if (c :: rest).all (fun d => d.isDigit) then
        some (((digitsToNat (c :: rest) : Nat) : Int))
      else none

/-- First numeric token of a mixed free-text value, as matched by the
regular expression of column 40 in dtypeConv: one or more digits, an
optional dot and further digits; no token yields no value. -/
def extractNumeric (l : List Char) : Option Rat :=
  match l with
  | [] => none
  | c :: rest =>
    if c.isDigit then
      match (c :: rest).span (fun d => d.isDigit) with
      | (ds, rest2) =>
        match rest2 with
        | p :: rest3 =>
          if p = '.' then
            some (((digitsToNat ds : Nat) : Rat) +
              ((digitsToNat (rest3.takeWhile (fun d => d.isDigit)) : Nat) : Rat) /
                ((10 : Rat) ^ (rest3.takeWhile (fun d => d.isDigit)).length))
          else some ((digitsToNat ds : Nat) : Rat)
        | [] => some ((digitsToNat ds : Nat) : Rat)
    else extractNumeric rest

/-- Day-granularity model of pd.to_datetime on a date string: an ISO
calendar date YYYY-MM-DD, encoded as the integer yyyymmdd (normalize drops
any time of day; the encoding of the day is irrelevant to every claim). -/
def parseDate? (s : String) : Option Int :=
  match s.data with
  | [a, b, c, d, e, f, g, h, i, j] =>
    if [a, b, c, d].all (fun x => x.isDigit) ∧ e = '-' ∧ f.isDigit ∧ g.isDigit ∧
        h = '-' ∧ i.isDigit ∧ j.isDigit then
      some (((digitsToNat [a, b, c, d] : Nat) : Int) * 10000 +
        ((digitsToNat [f, g] : Nat) : Int) * 100 + ((digitsToNat [i, j] : Nat) : Int))
    else none
  | _ => none

/-- Truncation toward zero, the behaviour of casting a Python float to int. -/
def ratTrunc (q : Rat) : Int :=
  if q < 0 then -((-q).floor) else q.floor

/-- Embedding of pd.to_numeric(col, errors='coerce') on one cell: numbers
pass through, parseable strings become numbers, everything else becomes
NaN. -/
def toNumericCell (c : RCell) : RCell :=
  match c with
  | RCell.s v =>
    match parseFloat? v with
    | some q => RCell.num q
    | none => RCell.null
  | c => c

/-- Embedding of the boolMap dictionary of dtypeConv:
the literal Yes maps to True, No to False, the empty string and None to
pd.NA.  Series.map sends every key not present in the dictionary to NaN,
which astype('boolean') then stores as pd.NA; both are TVal.null here. -/
def boolMap : List (RCell × TVal) :=
  [(RCell.s "Yes", TVal.vBool true), (RCell.s "No", TVal.vBool false),
   (RCell.s "", TVal.null), (RCell.null, TVal.null)]

/-- One cell of col.map(boolMap).astype('boolean'). -/
def seriesMapBool (c : RCell) : TVal :=
  ((boolMap.find? (fun p => p.1 = c)).map (fun p => p.2)).getD TVal.null

/-- Verbatim retention of a cell for string and category columns. -/
def cellVerbatim : RCell → TVal
  | RCell.null => TVal.null
  | RCell.s v => TVal.vStr v
  | RCell.num q => TVal.vFloat q

/-- Per-cell coercion of dtypeConv for each declared column dtype,
following the per-column statements of the source: astype(int) and
to_datetime raise on malformed input (Except.error), the boolean map and
the float-extract column never raise, and the float columns raise on a
non-empty string that float() cannot parse (only the empty string was
pre-replaced with NaN). -/
def coerceVal (d : Dtype) (c : RCell) : Except String TVal :=
  match d with
  | Dtype.intD =>
    match c with
    | RCell.num q => Except.ok (TVal.vInt (ratTrunc q))
    | RCell.s v =>
      match parseInt? v with
      | some n => Except.ok (TVal.vInt n)
      | none => Except.error v
    | RCell.null => Except.error "int column holds a missing value"
  | Dtype.catD => Except.ok (cellVerbatim c)
  | Dtype.strD => Except.ok (cellVerbatim c)
  | Dtype.boolD => Except.ok (seriesMapBool c)
  | Dtype.floatD =>
    match c with
    | RCell.null => Except.ok TVal.null
    | RCell.num q => Except.ok (TVal.vFloat q)
    | RCell.s v =>
      if v = "" then Except.ok TVal.null
      else
        match parseFloat? v with
        | some q => Except.ok (TVal.vFloat q)
        | none => Except.error v
  | Dtype.floatExtractD =>
    Except.ok
      (match c with
       | RCell.s v =>
         match extractNumeric v.data with
         | some q => TVal.vFloat q
         | none => TVal.null
       | _ => TVal.null)
  | Dtype.epochD =>
    Except.ok
      (match toNumericCell c with
       | RCell.num q => TVal.vDate (q.floor / 86400)
       | _ => TVal.null)
  | Dtype.dateD =>
    match c with
    | RCell.null => Except.ok TVal.null
    | RCell.s v =>
      match parseDate? v with
      | some dt => Except.ok (TVal.vDate dt)
      | none => Except.error v
    | RCell.num _ => Except.error "date column holds a number"
  | Dtype.int32D => Except.ok (cellVerbatim c)
  | Dtype.objD => Except.ok (cellVerbatim c)

/-- Dtype of a coerced column: the float-extract column is stored as float,
the epoch column as a date, everything else keeps its declared dtype. -/
def resultDtype (d : Dtype) : Dtype :=
  match d with
  | Dtype.floatExtractD => Dtype.floatD
  | Dtype.epochD => Dtype.dateD
  | d => d

/-- Typed column: the dtype pandas tracks for it and its cells. -/
abbrev TCol := Dtype × List TVal

/-- Coercion of one column of the dataframe. -/
def coerceCol (p : Dtype × List RCell) : Except String TCol :=
  (p.2.mapM (coerceVal p.1)).map (fun ws => (resultDtype p.1, ws))

/-- Positional column schema of dtypeConv, read off the source line by
line: columns 0-1 int, 2 category, 3 int, 4-6 string, 7-11 category,
12-17 boolean, 18 category, 19 date, 20-21 boolean, 22 category,
23-24 float, 25 category, 26 boolean, 27-29 category, 30-31 boolean,
32 date, 33 category, 34 string, 35 epoch, 36 category, 37-39 string,
40 float-extract, 41-55 category, 56-93 boolean, 94-96 string, 97 int,
98-102 string, 103-104 boolean. -/
def columnSchema : List Dtype :=
  List.replicate 2 Dtype.intD ++ [Dtype.catD] ++ [Dtype.intD] ++
  List.replicate 3 Dtype.strD ++ List.replicate 5 Dtype.catD ++
  List.replicate 6 Dtype.boolD ++ [Dtype.catD] ++ [Dtype.dateD] ++
  List.replicate 2 Dtype.boolD ++ [Dtype.catD] ++ List.replicate 2 Dtype.floatD ++
  [Dtype.catD] ++ [Dtype.boolD] ++ List.replicate 3 Dtype.catD ++
  List.replicate 2 Dtype.boolD ++ [Dtype.dateD] ++ [Dtype.catD] ++ [Dtype.strD] ++
  [Dtype.epochD] ++ [Dtype.catD] ++ List.replicate 3 Dtype.strD ++
  [Dtype.floatExtractD] ++ List.replicate 15 Dtype.catD ++
  List.replicate 38 Dtype.boolD ++ List.replicate 3 Dtype.strD ++ [Dtype.intD] ++
  List.replicate 5 Dtype.strD ++ List.replicate 2 Dtype.boolD

/-- Does a column contain a null cell. -/
def hasNullVal (vs : List TVal) : Bool :=
  vs.any (fun v => match v with | TVal.null => true | _ => false)

/-- Embedding of df.replace(with np.nan as key and None as value) on one
column: pandas boxes the nulls of a float column as Python None, which
demotes the column to object dtype whenever it contains a null; a float
column without nulls, and every other column, is unchanged.  The cells
themselves are unchanged in the model since TVal.null stands for NaN and
None alike. -/
def replaceNanNone (c : TCol) : TCol :=
  if c.1 = Dtype.floatD ∧ hasNullVal c.2 then (Dtype.objD, c.2) else c

/-- Embedding of the loop over df.select_dtypes(include float): in every
column still carrying a float dtype, nulls are replaced with zero. -/
def zeroFloatNulls (c : TCol) : TCol :=
  if c.1 = Dtype.floatD then
    (c.1, c.2.map (fun v => match v with | TVal.null => TVal.vFloat 0 | w => w))
  else c

/-- Null-normalization pass at the end of dtypeConv: first the NaN-to-None
replacement over the whole frame, then the zero replacement on the columns
selected as float dtype afterwards. -/
def normalizeNulls (cols : List TCol) : List TCol :=
  (cols.map replaceNanNone).map zeroFloatNulls

/-- Embedding of dtypeConv: coerce every column of the frame according to
the positional schema, then run the null normalization. -/
def dtypeConv (schema : List Dtype) (cols : List (List RCell)) : Except String (List TCol) :=
  ((schema.zip cols).mapM coerceCol).map normalizeNulls

/-! ## Identifier filtering (dropInvalid)

dropInvalid coerces column 1 (the animalID column) with
pd.to_numeric(errors='coerce'), writing the result back, and then drops the
rows whose identifier is NaN.  A raw row is its list of cells. -/

/-- The identifier cell of a raw row (column position 1). -/
def idCell (r : List RCell) : RCell := r.getD 1 RCell.null

/-- Is a cell a (coerced) number. -/
def isNumCell (c : RCell) : Bool :=
  match c with
  | RCell.num _ => true
  | _ => false

/-- Write the numeric coercion of the identifier back into the row. -/
def coerceIdRow (r : List RCell) : List RCell :=
  r.set 1 (toNumericCell (idCell r))

/-- Embedding of dropInvalid: coerce the identifier column of every row,
then keep exactly the rows whose identifier is not NaN. -/
def dropInvalid (rows : List (List RCell)) : List (List RCell) :=
  (rows.map coerceIdRow).filter (fun r => isNumCell (idCell r))

/-! ## Lookup Table Builder (schemaConv) and Schema Resolver (schemaConv2)

These stages address columns by name, so a named column records its name,
its pandas dtype and its cells. -/

structure NCol where
  name : String
  dtype : Dtype
  vals : List TVal
deriving DecidableEq

/-- Lexicographic comparison of two char lists by code point, the
comparison Python's sorted() applies to strings. -/
def charListLe : List Char → List Char → Bool
  | [], _ => true
  | _ :: _, [] => false
  | a :: as, b :: bs =>
    if a.toNat < b.toNat then true
    else if b.toNat < a.toNat then false
    else charListLe as bs

/-- Lexicographic order on strings by code point. -/
def strLe (a b : String) : Bool := charListLe a.data b.data

instance : IsTotal String (fun a b => strLe a b = true) :=
  ⟨fun a b => by
    unfold strLe
    generalize a.data = as
    generalize b.data = bs
    induction as generalizing bs with
    | nil => left; rfl
    | cons x xs ih =>
      cases bs with
      | nil => right; rfl
      | cons y ys =>
        rcases Nat.lt_trichotomy x.toNat y.toNat with h | h | h
        · left; simp [charListLe, h]
        · rcases ih ys with h2 | h2
          · left; simp [charListLe, h, h2]
          · right; simp [charListLe, h.symm, h2]
        · right; simp [charListLe, h]⟩

instance : IsTrans String (fun a b => strLe a b = true) :=
  ⟨fun a b c => by
    unfold strLe
    generalize a.data = as
    generalize b.data = bs
    generalize c.data = cs
    induction as generalizing bs cs with
    | nil => intro h1 h2; rfl
    | cons x xs ih =>
      intro h1 h2
      cases bs with
      | nil => simp [charListLe] at h1
      | cons y ys =>
        cases cs with
        | nil => simp [charListLe] at h2
        | cons z zs =>
          simp only [charListLe] at h1 h2 ⊢
          split_ifs at h1 h2 ⊢ with hab hba hbc hcb hac hca
          all_goals first
            | rfl
            | omega
            | (exact ih ys zs h1 h2)⟩

/-- Distinct category literals of a column (the alphabet pandas keeps as
cat.categories: the observed non-null values). -/
def catValues (vs : List TVal) : List String :=
  vs.filterMap (fun v => match v with | TVal.vStr s => some s | _ => none)

/-- Embedding of sorted(df[col].cat.categories): the distinct observed
values in lexicographically sorted order. -/
def uniqueSorted (vs : List TVal) : List String :=
  ((catValues vs).dedup).insertionSort (fun a b => strLe a b = true)

/-- Lookup table built for one eligible column: ids range(1, N+1) zipped
with the sorted distinct values. -/
def mkLookup (uv : List String) : List (Nat × String) :=
  (List.range' 1 uv.length).zip uv

/-- Surrogate id of one value under dict(zip(lookup_df value, lookup_df id)). -/
def lookupId (lk : List (Nat × String)) (s : String) : Option Nat :=
  (lk.find? (fun p => p.2 = s)).map (fun p => p.1)

/-- One cell of df[col].map(mapping): a categorical literal found in the
mapping becomes its surrogate id, anything else (an unmapped literal or a
null) becomes NaN. -/
def mapCatVal (lk : List (Nat × String)) (v : TVal) : TVal :=
  match v with
  | TVal.vStr s =>
    match lookupId lk s with
    | some i => TVal.vInt (i : Int)
    | none => TVal.null
  | _ => TVal.null

/-- Eligibility test of schemaConv: a category column with more than 5
distinct values. -/
def eligible (c : NCol) : Bool :=
  decide (c.dtype = Dtype.catD ∧ 5 < (uniqueSorted c.vals).length)

/-- First loop of schemaConv: the dictionary of lookup tables, one per
eligible category column, keyed by column name. -/
def lookupTables (tbl : List NCol) : List (String × List (Nat × String)) :=
  tbl.filterMap (fun c =>
    if eligible c then some (c.name, mkLookup (uniqueSorted c.vals)) else none)

/-- Embedding of schemaConv: build the lookup tables, then replace every
column that owns a lookup table by its surrogate ids, cast to the nullable
Int32 dtype; return the converted frame and the lookup-table dictionary. -/
def schemaConv (tbl : List NCol) : List NCol × List (String × List (Nat × String)) :=
  let lts := lookupTables tbl
  (tbl.map (fun c =>
    match lts.find? (fun p => p.1 = c.name) with
    | some p => { c with dtype := Dtype.int32D, vals := c.vals.map (mapCatVal p.2) }
    | none => c), lts)

/-- Embedding of schemaConv2: for every category column whose name is a key
of the loaded mapping contract, map its values onto the existing surrogate
ids (unmapped values become NaN, normalized to None afterwards); every
other column is untouched.  The mapped column carries the object dtype tag
(the id column is not cast back to an integer dtype on this path). -/
def schemaConv2 (contract : List (String × List (Nat × String)))
    (tbl : List NCol) : List NCol :=
  tbl.map (fun c =>
    if c.dtype = Dtype.catD then
      match contract.find? (fun p => p.1 = c.name) with
      | some p => { c with dtype := Dtype.objD, vals := c.vals.map (mapCatVal p.2) }
      | none => c
    else c)

/-! ## Mapping-contract persistence

schemaConv serializes the lookup-table dictionary as one JSON document
(each lookup table as its records, via to_dict orient='records') and
schemaConv2 reads it back with json.load and rebuilds the per-column
DataFrames.  The JSON text itself round-trips through json.dump/json.load,
so the document is modelled as a JSON value tree. -/

inductive JVal where
  | jnum (n : Int) : JVal
  | jstr (s : String) : JVal
  | jarr (xs : List JVal) : JVal
  | jobj (fields : List (String × JVal)) : JVal

/-- One row of lookup_df.to_dict(orient='records'). -/
def serializeRecord (p : Nat × String) : JVal :=
  JVal.jobj [("id", JVal.jnum (p.1 : Int)), ("value", JVal.jstr p.2)]

/-- Embedding of the serializable_lookup document json.dump writes:
column name mapped to the list of id/value records of its lookup table. -/
def serializeContract (ct : List (String × List (Nat × String))) : JVal :=
  JVal.jobj (ct.map (fun p => (p.1, JVal.jarr (p.2.map serializeRecord))))

/-- Read one id/value record back (pd.DataFrame of the loaded records). -/
def deserializeRecord : JVal → Option (Nat × String)
  | JVal.jobj [("id", JVal.jnum (Int.ofNat n)), ("value", JVal.jstr s)] => some (n, s)
  | _ => none

/-- Read one lookup table back from its array of records. -/
def deserializeLookup : JVal → Option (List (Nat × String))
  | JVal.jarr xs => xs.mapM deserializeRecord
  | _ => none

/-- Embedding of the loader of schemaConv2: rebuild the dictionary of
lookup tables from the loaded JSON document. -/
def deserializeContract : JVal → Option (List (String × List (Nat × String)))
  | JVal.jobj fs => fs.mapM (fun p => (deserializeLookup p.2).map (fun lk => (p.1, lk)))
  | _ => none

/-- Per-column contract of schemaConv: an eligible category column (more
than 5 distinct values) owns a lookup table whose ids are exactly the
contiguous range 1..N paired, in order, with the lexicographically sorted
distinct values (no gaps, no duplicates, alphabet exactly the observed
literals), and its cells are replaced by the surrogate id of their value
(the rank of the value in sorted order, starting at 1), cast to Int32;
an ineligible column is left exactly as its original literals. -/
def schemaConvColSpec (tbl : List NCol) (c c2 : NCol) : Prop :=
  (eligible c = true →
    (lookupTables tbl).find? (fun p => p.1 = c.name)
        = some (c.name, mkLookup (uniqueSorted c.vals))
    ∧ (mkLookup (uniqueSorted c.vals)).map Prod.fst
        = List.range' 1 (uniqueSorted c.vals).length
    ∧ List.Sorted (fun a b => strLe a b = true) (uniqueSorted c.vals)
    ∧ (uniqueSorted c.vals).Nodup
    ∧ (∀ s, s ∈ catValues c.vals ↔ s ∈ uniqueSorted c.vals)
    ∧ c2.name = c.name ∧ c2.dtype = Dtype.int32D
    ∧ c2.vals = c.vals.map (fun v =>
        match v with
        | TVal.vStr s => TVal.vInt ((1 + (uniqueSorted c.vals).indexOf s : Nat) : Int)
        | _ => TVal.null))
  ∧ (eligible c = false → c2 = c)

/-- Concrete one-column table with six distinct categorical values, used to
witness the eligible branch of the schemaConv contract. -/
def c2WitnessTbl : List NCol :=
  [⟨"breed", Dtype.catD,
    [TVal.vStr "pug", TVal.vStr "lab", TVal.vStr "cob", TVal.vStr "fox",
     TVal.vStr "elk", TVal.vStr "ant"]⟩]

/-- Concrete species column of the first-run scenario of the specification:
the values Dog, Cat, Dog, Bird, Cat, Dog, Fish, Rabbit. -/
def speciesCol : NCol :=
  ⟨"species", Dtype.catD,
   [TVal.vStr "Dog", TVal.vStr "Cat", TVal.vStr "Dog", TVal.vStr "Bird",
    TVal.vStr "Cat", TVal.vStr "Dog", TVal.vStr "Fish", TVal.vStr "Rabbit"]⟩

/-! ## Theorems settling the claims -/

theorem upConnection_apply {V : Type} (recs : List (Nat × V)) :
    ∀ (t : Nat → Option V) (k : Nat),
      upConnection t recs k =
        match lastAssign recs k with
        | some v => some v
        | none => t k := by
  induction recs with
  | nil => intro t k; rfl
  | cons r rs ih =>
    intro t k
    have hstep : upConnection t (r :: rs) = upConnection (upsertRow t r.1 r.2) rs := rfl
    rw [hstep, ih]
    cases h : lastAssign rs k with
    | some v => simp [lastAssign, h]
    | none =>
      by_cases hk : k = r.1
      · subst hk
        simp [lastAssign, h, upsertRow]
      · have hk2 : ¬ (r.1 = k) := fun he => hk he.symm
        simp [lastAssign, h, upsertRow, hk, hk2]

/-- C1: applying upConnection twice with an identical input batch against the
same destination yields the same destination row set as applying it once;
for every row, the statement stores the incoming non-key payload under the
row's primary key (overwriting any existing payload) and leaves every other
key untouched, so an existing key is updated in place and an absent key is
inserted. -/
theorem upConnection_upsert_idempotent {V : Type}
    (t : Nat → Option V) (recs : List (Nat × V)) :
    upConnection (upConnection t recs) recs = upConnection t recs
    ∧ (∀ k v, upsertRow t k v k = some v)
    ∧ (∀ k v q, q ≠ k → upsertRow t k v q = t q) := by
  refine ⟨funext fun k => ?_, fun k v => by simp [upsertRow], fun k v q hq => by simp [upsertRow, hq]⟩
  rw [upConnection_apply, upConnection_apply]
  cases h : lastAssign recs k with
  | some v => rfl
  | none => rfl

/-- Witness for C1: updating key 1 leaves the absent key 2 untouched. -/
theorem upConnection_upsert_idempotent_witness :
    upsertRow (fun _ => (none : Option Nat)) 1 7 2 = none :=
  (upConnection_upsert_idempotent (fun _ => (none : Option Nat)) [(1, 7)]).2.2 1 7 2 (by decide)

theorem runBody_all_ok {V : Type} (ok : Nat → V → Bool) (recs : List (Nat × V)) :
    ∀ t : Nat → Option V, (∀ r ∈ recs, ok r.1 r.2 = true) →
      runBody ok t recs = some (upConnection t recs) := by
  induction recs with
  | nil => intro t _; rfl
  | cons r rs ih =>
    intro t h
    have hr : ok r.1 r.2 = true := h r (List.mem_cons_self r rs)
    have hrs : ∀ x ∈ rs, ok x.1 x.2 = true := fun x hx => h x (List.mem_cons_of_mem r hx)
    simp only [runBody, hr, if_true]
    exact ih (upsertRow t r.1 r.2) hrs

theorem runBody_fails {V : Type} (ok : Nat → V → Bool) (recs : List (Nat × V)) :
    ∀ t : Nat → Option V, (∃ r ∈ recs, ok r.1 r.2 = false) →
      runBody ok t recs = none := by
  induction recs with
  | nil => intro t h; rcases h with ⟨r, hr, _⟩; exact absurd hr (List.not_mem_nil r)
  | cons r rs ih =>
    intro t h
    rcases h with ⟨a, ha, hfa⟩
    by_cases hok : ok r.1 r.2 = true
    · rcases List.mem_cons.mp ha with rfl | hmem
      · rw [hok] at hfa; exact absurd hfa (by simp)
      · simp only [runBody, hok, if_true]
        exact ih (upsertRow t r.1 r.2) ⟨a, hmem, hfa⟩
    · simp only [runBody, Bool.not_eq_true] at hok
      simp [runBody, hok]

/-- C10: upConnection executes all per-row upsert statements of a batch
inside the one transaction opened by engine.begin(): if every statement
succeeds, all rows are committed together and the destination equals the
plain upsert of the whole batch; if any row's statement fails, the
transaction rolls back and the destination table is left exactly as it was
before the call, with no prefix of the batch committed. -/
theorem upConnectionTxn_atomic {V : Type} (ok : Nat → V → Bool)
    (t : Nat → Option V) (recs : List (Nat × V)) :
    ((∀ r ∈ recs, ok r.1 r.2 = true) → upConnectionTxn ok t recs = upConnection t recs)
    ∧ ((∃ r ∈ recs, ok r.1 r.2 = false) → upConnectionTxn ok t recs = t) := by
  constructor
  · intro h
    unfold upConnectionTxn
    rw [runBody_all_ok ok recs t h]
    rfl
  · intro h
    unfold upConnectionTxn
    rw [runBody_fails ok recs t h]
    rfl

/-- Witness for C10: a batch whose second record's statement fails leaves a
concrete destination unchanged. -/
theorem upConnectionTxn_atomic_witness :
    upConnectionTxn (fun k _ => decide (k ≠ 2)) (fun _ => (none : Option Nat)) [(1, 10), (2, 20)]
      = (fun _ => (none : Option Nat)) :=
  (upConnectionTxn_atomic (fun k _ => decide (k ≠ 2)) (fun _ => (none : Option Nat))
    [(1, 10), (2, 20)]).2 ⟨(2, 20), by decide, by decide⟩

theorem mapM_map_some {α β : Type} (f : α → β) (g : β → Option α) :
    ∀ l : List α, (∀ a ∈ l, g (f a) = some a) → (l.map f).mapM g = some l := by
  intro l
  induction l with
  | nil => intro _; rfl
  | cons a l ih =>
    intro h
    have ha := h a (List.mem_cons_self a l)
    have hl := ih fun x hx => h x (List.mem_cons_of_mem a hx)
    rw [List.map_cons, List.mapM_cons, ha, hl]
    rfl

theorem deserializeRecord_serializeRecord (q : Nat × String) :
    deserializeRecord (serializeRecord q) = some q := rfl

/-- C8: the mapping contract round-trips exactly: serializing any set of
lookup tables with schemaConv's JSON persistence and deserializing it with
schemaConv2's loader reproduces the identical id-to-value assignment for
every column. -/
theorem contract_roundtrip (ct : List (String × List (Nat × String))) :
    deserializeContract (serializeContract ct) = some ct := by
  unfold serializeContract deserializeContract
  apply mapM_map_some
  intro p _
  have hin : deserializeLookup (JVal.jarr (p.2.map serializeRecord)) = some p.2 := by
    unfold deserializeLookup
    exact mapM_map_some serializeRecord deserializeRecord p.2
      (fun q _ => deserializeRecord_serializeRecord q)
  simp [hin]

/-! ## Claims about the Type Coercion Stage -/

theorem mapM_ok_map {α β : Type} (f : α → Except String β) (g : α → β)
    (hf : ∀ a, f a = Except.ok (g a)) : ∀ l : List α, l.mapM f = Except.ok (l.map g) := by
  intro l
  induction l with
  | nil => rfl
  | cons a l ih =>
    rw [List.mapM_cons, hf a, ih, List.map_cons]
    rfl

/-- C4: for every boolean-typed column and every input value, dtypeConv
maps the literal Yes to true, No to false, the empty string or an absent
value to unknown (pd.NA, modelled as null), and any other literal to
unknown as well; the coercion of a boolean column is the total map
seriesMapBool applied cell by cell and never raises. -/
theorem dtypeConv_boolean_tristate :
    seriesMapBool (RCell.s "Yes") = TVal.vBool true
    ∧ seriesMapBool (RCell.s "No") = TVal.vBool false
    ∧ seriesMapBool (RCell.s "") = TVal.null
    ∧ seriesMapBool RCell.null = TVal.null
    ∧ (∀ v : String, v ≠ "Yes" → v ≠ "No" → v ≠ "" → seriesMapBool (RCell.s v) = TVal.null)
    ∧ (∀ vals : List RCell,
        coerceCol (Dtype.boolD, vals) = Except.ok (Dtype.boolD, vals.map seriesMapBool)) := by
  refine ⟨rfl, rfl, rfl, rfl, ?_, ?_⟩
  · intro v h1 h2 h3
    have g1 : ¬ (RCell.s "Yes" = RCell.s v) := fun he => h1 (by injection he with h; exact h.symm)
    have g2 : ¬ (RCell.s "No" = RCell.s v) := fun he => h2 (by injection he with h; exact h.symm)
    have g3 : ¬ (RCell.s "" = RCell.s v) := fun he => h3 (by injection he with h; exact h.symm)
    simp [seriesMapBool, boolMap, g1, g2, g3]
  · intro vals
    unfold coerceCol
    rw [mapM_ok_map (coerceVal Dtype.boolD) seriesMapBool (fun c => rfl) vals]
    rfl

/-- Witness for C4: the unrecognized literal Maybe becomes unknown. -/
theorem dtypeConv_boolean_tristate_witness :
    seriesMapBool (RCell.s "Maybe") = TVal.null :=
  dtypeConv_boolean_tristate.2.2.2.2.1 "Maybe" (by decide) (by decide) (by decide)

/-- C6 counterexample: the claim says a non-empty value of a float column
that fails conversion is coerced to no value rather than raising, but
astype(float) raises on such a value: on the concrete input abc the float
coercion of dtypeConv raises (models the ValueError of astype(float)). -/
theorem floatD_malformed_raises :
    coerceVal Dtype.floatD (RCell.s "abc") = Except.error "abc" := rfl

/-- C6 amended: for every float-typed column, dtypeConv maps empty-string
and missing values to no value, parseable values to their number, and a
non-empty value that fails conversion to float raises an error aborting the
run (it is not coerced to no value). -/
theorem floatD_coercion_amended :
    coerceVal Dtype.floatD RCell.null = Except.ok TVal.null
    ∧ coerceVal Dtype.floatD (RCell.s "") = Except.ok TVal.null
    ∧ (∀ v q, parseFloat? v = some q →
        coerceVal Dtype.floatD (RCell.s v) = Except.ok (TVal.vFloat q))
    ∧ (∀ v, v ≠ "" → parseFloat? v = none →
        coerceVal Dtype.floatD (RCell.s v) = Except.error v) := by
  refine ⟨rfl, rfl, ?_, ?_⟩
  · intro v q h
    by_cases hv : v = ""
    · subst hv
      simp [parseFloat?] at h
    · simp [coerceVal, hv, h]
  · intro v hv h
    simp [coerceVal, hv, h]

/-- Witness for C6 amended: the parseable value 12 converts to the float 12. -/
theorem floatD_coercion_amended_witness :
    coerceVal Dtype.floatD (RCell.s "12") = Except.ok (TVal.vFloat 12) :=
  floatD_coercion_amended.2.2.1 "12" 12 (by decide)

/-- C7 (evaluation at the failing input): the claim says the null
normalization replaces every null of every floating-point column with
zero, as the source's own comment states, but replacing NaN with None
demotes a float column that contains a null to the object dtype before the
zero-replacement loop selects float columns, so the loop misses exactly
the columns that have nulls: a float column holding 2 and an empty string
comes out as an object column still holding a null, not zero. -/
theorem float_null_normalization_bug :
    dtypeConv [Dtype.floatD] [[RCell.s "2", RCell.s ""]]
      = Except.ok [(Dtype.objD, [TVal.vFloat 2, TVal.null])] := rfl

/-! ## Claim about identifier filtering -/

theorem idCell_coerceIdRow : ∀ r : List RCell, idCell (coerceIdRow r) = toNumericCell (idCell r) := by
  intro r
  rcases r with _ | ⟨a, _ | ⟨b, t⟩⟩ <;> rfl

theorem mapM_ok_forall₂ {α β : Type} (f : α → Except String β) :
    ∀ (l : List α) (out : List β), l.mapM f = Except.ok out →
      List.Forall₂ (fun a b => f a = Except.ok b) l out := by
  intro l
  induction l with
  | nil =>
    intro out h
    have h' : Except.ok ([] : List β) = Except.ok out := h
    injection h' with h2
    subst h2
    exact List.Forall₂.nil
  | cons a l ih =>
    intro out h
    rw [List.mapM_cons] at h
    cases hfa : f a with
    | error e =>
      rw [hfa] at h
      exact Except.noConfusion (show (Except.error e : Except String (List β)) = Except.ok out from h)
    | ok b =>
      cases hml : l.mapM f with
      | error e =>
        simp only [hfa, hml] at h
        exact Except.noConfusion
          (show (Except.error e : Except String (List β)) = Except.ok out from h)
      | ok bs =>
        simp only [hfa, hml] at h
        have h' : Except.ok (b :: bs) = Except.ok out := h
        injection h' with h2
        subst h2
        exact List.Forall₂.cons hfa (ih bs hml)

theorem coerceCol_length (p : Dtype × List RCell) (tc : TCol)
    (h : coerceCol p = Except.ok tc) : tc.2.length = p.2.length := by
  unfold coerceCol at h
  cases hm : p.2.mapM (coerceVal p.1) with
  | error e =>
    rw [hm] at h
    exact Except.noConfusion (show (Except.error e : Except String TCol) = Except.ok tc from h)
  | ok ws =>
    rw [hm] at h
    have h' : Except.ok ((resultDtype p.1, ws) : TCol) = Except.ok tc := h
    injection h' with h2
    subst h2
    have hlen := (mapM_ok_forall₂ (coerceVal p.1) p.2 ws hm).length_eq
    simpa using hlen.symm

theorem normalize_cell_length (c : TCol) :
    (zeroFloatNulls (replaceNanNone c)).2.length = c.2.length := by
  unfold replaceNanNone zeroFloatNulls
  split_ifs <;> simp

/-- C5: dropInvalid retains, in order, exactly the rows whose identifier
column coerces to a number (their identifier rewritten to that number),
excludes every row whose identifier fails numeric coercion, and is the only
row-filtering step: the later stages dtypeConv, schemaConv and schemaConv2
all preserve the number of entries of every column. -/
theorem dropInvalid_only_filtering_step (rows : List (List RCell)) :
    dropInvalid rows
        = (rows.filter (fun r => isNumCell (toNumericCell (idCell r)))).map coerceIdRow
    ∧ (∀ r ∈ dropInvalid rows, isNumCell (idCell r) = true)
    ∧ (dropInvalid rows).length = rows.countP (fun r => isNumCell (toNumericCell (idCell r)))
    ∧ (∀ (schema : List Dtype) (cols : List (List RCell)) (out : List TCol),
        dtypeConv schema cols = Except.ok out →
          List.Forall₂ (fun (p : Dtype × List RCell) (tc : TCol) => tc.2.length = p.2.length)
            (schema.zip cols) out)
    ∧ (∀ tbl : List NCol,
        List.Forall₂ (fun c c2 => c2.vals.length = c.vals.length) tbl (schemaConv tbl).1)
    ∧ (∀ (contract : List (String × List (Nat × String))) (tbl : List NCol),
        List.Forall₂ (fun c c2 => c2.vals.length = c.vals.length) tbl
          (schemaConv2 contract tbl)) := by
  have h1 : dropInvalid rows
      = (rows.filter (fun r => isNumCell (toNumericCell (idCell r)))).map coerceIdRow := by
    unfold dropInvalid
    rw [List.filter_map]
    congr 1
    apply List.filter_congr
    intro r _
    simp [Function.comp, idCell_coerceIdRow]
  refine ⟨h1, ?_, ?_, ?_, ?_, ?_⟩
  · intro r hr
    unfold dropInvalid at hr
    have hp := List.of_mem_filter hr
    simpa using hp
  · rw [h1, List.length_map]
    exact (List.countP_eq_length_filter _ _).symm
  · intro schema cols out h
    unfold dtypeConv at h
    cases hm : (schema.zip cols).mapM coerceCol with
    | error e =>
      rw [hm] at h
      exact Except.noConfusion
        (show (Except.error e : Except String (List TCol)) = Except.ok out from h)
    | ok mid =>
      rw [hm] at h
      have h' : Except.ok (normalizeNulls mid) = Except.ok out := h
      injection h' with h2
      subst h2
      have hf := mapM_ok_forall₂ coerceCol (schema.zip cols) mid hm
      have hn : normalizeNulls mid = mid.map (fun c => zeroFloatNulls (replaceNanNone c)) := by
        simp [normalizeNulls, List.map_map, Function.comp]
      rw [hn, List.forall₂_map_right_iff]
      exact hf.imp (fun {a b} hab => by
        rw [normalize_cell_length]
        exact coerceCol_length _ _ hab)
  · intro tbl
    rw [show (schemaConv tbl).1 = tbl.map (fun c =>
        match (lookupTables tbl).find? (fun p => p.1 = c.name) with
        | some p => { c with dtype := Dtype.int32D, vals := c.vals.map (mapCatVal p.2) }
        | none => c) from rfl]
    rw [List.forall₂_map_right_iff, List.forall₂_same]
    intro c _
    cases h : (lookupTables tbl).find? (fun p => p.1 = c.name) <;> simp
  · intro contract tbl
    unfold schemaConv2
    rw [List.forall₂_map_right_iff, List.forall₂_same]
    intro c _
    by_cases hd : c.dtype = Dtype.catD
    · simp only [hd, if_true]
      cases h : contract.find? (fun p => p.1 = c.name) <;> simp
    · simp [hd]

/-- Witness for C5: a concrete row whose identifier coerces is retained and
carries a numeric identifier. -/
theorem dropInvalid_only_filtering_step_witness :
    isNumCell (idCell [RCell.s "x", RCell.num 12]) = true :=
  (dropInvalid_only_filtering_step
      [[RCell.s "x", RCell.s "12"], [RCell.s "y", RCell.s "img"]]).2.1
    [RCell.s "x", RCell.num 12] (by decide)

/-! ## Claims about the Lookup Table Builder and the Schema Resolver -/

theorem lookupId_mkLookup :
    ∀ (l : List String) (k : Nat) (s : String), s ∈ l →
      lookupId ((List.range' k l.length).zip l) s = some (k + l.indexOf s) := by
  intro l
  induction l with
  | nil => intro k s hs; exact absurd hs (List.not_mem_nil s)
  | cons a l ih =>
    intro k s hs
    have hlen : (a :: l).length = l.length + 1 := rfl
    rw [hlen, List.range'_succ, List.zip_cons_cons]
    by_cases has : a = s
    · subst has
      simp only [lookupId]
      rw [List.find?_cons_of_pos _ (by simp)]
      simp [List.indexOf_cons_self]
    · have hs' : s ∈ l := by
        rcases List.mem_cons.mp hs with h | h
        · exact absurd h.symm has
        · exact h
      simp only [lookupId]
      rw [List.find?_cons_of_neg _ (by simp [has])]
      have hih := ih (k + 1) s hs'
      simp only [lookupId] at hih
      rw [hih, List.indexOf_cons_ne _ has]
      simp only [Option.some.injEq]
      omega

theorem mem_lookupTables_name (tbl : List NCol) (p : String × List (Nat × String))
    (hp : p ∈ lookupTables tbl) : p.1 ∈ tbl.map NCol.name := by
  unfold lookupTables at hp
  rcases List.mem_filterMap.mp hp with ⟨c, hc, hc2⟩
  by_cases he : eligible c
  · rw [if_pos he] at hc2
    injection hc2 with h2
    subst h2
    exact List.mem_map_of_mem NCol.name hc
  · rw [if_neg he] at hc2
    exact Option.noConfusion hc2

theorem lookupTables_find_eligible :
    ∀ tbl : List NCol, (tbl.map NCol.name).Nodup →
      ∀ c ∈ tbl, eligible c = true →
        (lookupTables tbl).find? (fun p => p.1 = c.name)
          = some (c.name, mkLookup (uniqueSorted c.vals)) := by
  intro tbl
  induction tbl with
  | nil => intro _ c hc; exact absurd hc (List.not_mem_nil c)
  | cons a rest ih =>
    intro h c hc he
    rw [List.map_cons, List.nodup_cons] at h
    rcases h with ⟨hna, hnr⟩
    have hLT : lookupTables (a :: rest)
        = (if eligible a then [(a.name, mkLookup (uniqueSorted a.vals))] else [])
            ++ lookupTables rest := by
      by_cases hea : eligible a <;> simp [lookupTables, List.filterMap_cons, hea]
    rcases List.mem_cons.mp hc with rfl | hcr
    · rw [hLT, if_pos he, List.singleton_append]
      rw [List.find?_cons_of_pos _ (by simp)]
    · have hneq : a.name ≠ c.name := by
        intro he2
        exact hna (he2 ▸ List.mem_map_of_mem NCol.name hcr)
      rw [hLT]
      by_cases hea : eligible a
      · rw [if_pos hea, List.singleton_append]
        rw [List.find?_cons_of_neg _ (by simp [hneq])]
        exact ih hnr c hcr he
      · rw [if_neg hea, List.nil_append]
        exact ih hnr c hcr he

theorem lookupTables_find_ineligible
    (tbl : List NCol) (h : (tbl.map NCol.name).Nodup) :
    ∀ c ∈ tbl, eligible c = false →
      (lookupTables tbl).find? (fun p => p.1 = c.name) = none := by
  intro c hc he
  rw [List.find?_eq_none]
  intro p hp hpname
  have hpn : p.1 = c.name := by simpa using hpname
  unfold lookupTables at hp
  rcases List.mem_filterMap.mp hp with ⟨b, hb, hb2⟩
  by_cases heb : eligible b
  · rw [if_pos heb] at hb2
    injection hb2 with h2
    subst h2
    have hbc : b = c := List.inj_on_of_nodup_map h hb hc (by simpa using hpn)
    subst hbc
    rw [he] at heb
    exact Bool.noConfusion heb
  · rw [if_neg heb] at hb2
    exact Option.noConfusion hb2

/-- C2: for every categorical column of the Typed Table with more than 5
distinct values, schemaConv assigns surrogate ids forming the contiguous
range 1..N with no gaps or duplicates, numbered in lexicographically sorted
order of the distinct values, and replaces the column's cells with these
ids; every categorical column with at most 5 distinct values is left as its
original categorical literals. -/
theorem schemaConv_surrogate_ids (tbl : List NCol) (h : (tbl.map NCol.name).Nodup) :
    List.Forall₂ (schemaConvColSpec tbl) tbl (schemaConv tbl).1 := by
  rw [show (schemaConv tbl).1 = tbl.map (fun c =>
      match (lookupTables tbl).find? (fun p => p.1 = c.name) with
      | some p => { c with dtype := Dtype.int32D, vals := c.vals.map (mapCatVal p.2) }
      | none => c) from rfl]
  rw [List.forall₂_map_right_iff, List.forall₂_same]
  intro c hc
  constructor
  · intro he
    have hfind := lookupTables_find_eligible tbl h c hc he
    rw [hfind]
    refine ⟨rfl, ?_, ?_, ?_, ?_, rfl, rfl, ?_⟩
    · exact List.map_fst_zip _ _ (by simp)
    · exact List.sorted_insertionSort _ _
    · exact ((List.perm_insertionSort _ _).nodup_iff).mpr (List.nodup_dedup _)
    · intro s
      unfold uniqueSorted
      rw [(List.perm_insertionSort _ _).mem_iff, List.mem_dedup]
    · apply List.map_congr_left
      intro v hv
      cases v with
      | vStr s =>
        have hsmem : s ∈ catValues c.vals := List.mem_filterMap.mpr ⟨TVal.vStr s, hv, rfl⟩
        have hsuv : s ∈ uniqueSorted c.vals := by
          unfold uniqueSorted
          rw [(List.perm_insertionSort _ _).mem_iff, List.mem_dedup]
          exact hsmem
        have hlk := lookupId_mkLookup (uniqueSorted c.vals) 1 s hsuv
        simp [mapCatVal, mkLookup, hlk]
      | null => rfl
      | vInt n => rfl
      | vFloat q => rfl
      | vBool b => rfl
      | vDate d => rfl
  · intro he
    rw [lookupTables_find_ineligible tbl h c hc he]

/-- Witness for C2: the contract holds at a concrete table whose column
names are distinct. -/
theorem schemaConv_surrogate_ids_witness :
    List.Forall₂ (schemaConvColSpec c2WitnessTbl) c2WitnessTbl (schemaConv c2WitnessTbl).1 :=
  schemaConv_surrogate_ids c2WitnessTbl (by decide)

/-- C9 counterexample: on the scenario's value sequence, schemaConv builds
no lookup table at all (the claim says it produces ids Bird=1 .. Rabbit=5):
the sequence has only 5 distinct values, which does not exceed the
threshold of 5. -/
theorem species_scenario_counterexample :
    (schemaConv [speciesCol]).2 = [] := by decide

/-- C9 amended: the scenario's species column has 5 distinct values
(Bird, Cat, Dog, Fish, Rabbit alphabetically), not 6, so the threshold
(strictly more than 5) is not met: schemaConv produces no lookup table and
leaves the species column as its original categorical literals. -/
theorem species_scenario_amended :
    (uniqueSorted speciesCol.vals).length = 5
    ∧ uniqueSorted speciesCol.vals = ["Bird", "Cat", "Dog", "Fish", "Rabbit"]
    ∧ schemaConv [speciesCol] = ([speciesCol], []) := by decide

/-- C3: on the subsequent-run path, for every categorical column present in
the persisted mapping contract, schemaConv2 maps each cell by direct lookup
in the contract: a value found there becomes its existing surrogate id (a
pair of the contract), a value not found becomes null, and every id the
resolver emits comes from the contract (never a newly minted id);
categorical columns absent from the contract, and non-categorical columns,
are left untouched. -/
theorem schemaConv2_resolver_existing_ids :
    (∀ (lk : List (Nat × String)) (s : String),
      lookupId lk s = none → mapCatVal lk (TVal.vStr s) = TVal.null)
    ∧ (∀ (lk : List (Nat × String)) (s : String) (i : Nat),
        lookupId lk s = some i →
          mapCatVal lk (TVal.vStr s) = TVal.vInt (i : Int) ∧ (i, s) ∈ lk)
    ∧ (∀ (lk : List (Nat × String)) (v : TVal) (n : Int),
        mapCatVal lk v = TVal.vInt n →
          ∃ (i : Nat) (s : String), (i, s) ∈ lk ∧ v = TVal.vStr s ∧ ((i : Nat) : Int) = n)
    ∧ (∀ (contract : List (String × List (Nat × String))) (tbl : List NCol),
        List.Forall₂ (fun c c2 =>
          (c.dtype ≠ Dtype.catD → c2 = c)
          ∧ (c.dtype = Dtype.catD → contract.find? (fun p => p.1 = c.name) = none → c2 = c)
          ∧ (∀ p, c.dtype = Dtype.catD →
              contract.find? (fun q => q.1 = c.name) = some p →
                c2.name = c.name ∧ c2.vals = c.vals.map (mapCatVal p.2)))
          tbl (schemaConv2 contract tbl)) := by
  have part2 : ∀ (lk : List (Nat × String)) (s : String) (i : Nat),
      lookupId lk s = some i →
        mapCatVal lk (TVal.vStr s) = TVal.vInt (i : Int) ∧ (i, s) ∈ lk := by
    intro lk s i h
    unfold lookupId at h
    cases hf : lk.find? (fun p => p.2 = s) with
    | none => rw [hf] at h; exact Option.noConfusion h
    | some p =>
      rw [hf] at h
      have h' : some p.1 = some i := h
      injection h' with h1
      have hp2 : p.2 = s := by simpa using List.find?_some hf
      have hpm : p ∈ lk := List.mem_of_find?_eq_some hf
      constructor
      · simp [mapCatVal, lookupId, hf, h1]
      · rcases p with ⟨pi, ps⟩
        simp only at h1 hp2
        subst h1
        subst hp2
        exact hpm
  refine ⟨?_, part2, ?_, ?_⟩
  · intro lk s h
    simp [mapCatVal, h]
  · intro lk v n h
    cases v with
    | vStr s =>
      cases hid : lookupId lk s with
      | none => simp [mapCatVal, hid] at h
      | some i =>
        have h2 := part2 lk s i hid
        rw [h2.1] at h
        injection h with hn
        exact ⟨i, s, h2.2, rfl, hn⟩
    | null => simp [mapCatVal] at h
    | vInt m => simp [mapCatVal] at h
    | vFloat q => simp [mapCatVal] at h
    | vBool b => simp [mapCatVal] at h
    | vDate d => simp [mapCatVal] at h
  · intro contract tbl
    unfold schemaConv2
    rw [List.forall₂_map_right_iff, List.forall₂_same]
    intro c _
    refine ⟨?_, ?_, ?_⟩
    · intro hd
      simp [hd]
    · intro hd hfind
      simp [hd, hfind]
    · intro p hd hfind
      simp [hd, hfind]

/-- Witness for C3: the value Bird is resolved to its existing id 1 of a
concrete one-entry contract. -/
theorem schemaConv2_resolver_existing_ids_witness :
    mapCatVal [(1, "Bird")] (TVal.vStr "Bird") = TVal.vInt 1 ∧ (1, "Bird") ∈ [(1, "Bird")] :=
  schemaConv2_resolver_existing_ids.2.1 [(1, "Bird")] "Bird" 1 (by decide)

end ETL
